import Mathlib

/-!
Verification of the ukpr press-release scraper/server against its
natural-language specification.

The development shallowly embeds the Go sources:
* `main.go` — the `PressRelease` struct, the `scrape` helper, the `doit`
  ingestion cycle and the sequential scraper loop in `main`;
* the unnamed HTML helper file — `getAttr`;
* the `Store` (whose implementation file is not among the available
  sources; only its call sites in `main.go` are) is modelled from the
  spec, as is the subscription behaviour of the eventsource hub, which
  is documented in `main.go`'s package comment.
-/

namespace Ukpr

/-- Embedding of the Go struct `PressRelease` from `main.go`:
Title, Source, Permalink, PubDate, Content and the unexported
`complete` flag.  `PubDate` is modelled as a natural-number timestamp. -/
structure PressRelease where
  title : String
  source : String
  permalink : String
  pubDate : Nat
  content : String
  complete : Bool
deriving Repr, DecidableEq

/-- Modelled from the spec: a `PersistedEvent` carries the sequence
identifier assigned by the Store, the topic (channel) it belongs to and
the stored `PressRelease` payload.  The Store implementation file is not
among the available sources; `main.go` passes the value returned by
`store.Stash(pr)` to `sseSrv.Publish([]string{pr.Source}, ev)`. -/
structure Event where
  id : Nat
  channel : String
  payload : PressRelease
deriving Repr, DecidableEq

/-- Modelled from the spec: the durable state of the Event Store — the
list of persisted events in the order they were accepted.  The spec
describes "a durable log of accepted items per topic, with a dedup
index and a monotonically increasing sequence identifier"; the physical
sqlite format is an implementation detail. -/
structure Store where
  events : List Event
deriving Repr, DecidableEq

/-- Largest sequence identifier present in the store (0 when empty). -/
def Store.maxId (s : Store) : Nat :=
  s.events.foldr (fun e m => max e.id m) 0

/-- Modelled from the spec: the dedup index — whether an item with the
given (topic, permalink) pair has ever been persisted. -/
def Store.hasKey (s : Store) (source permalink : String) : Bool :=
  s.events.any (fun e =>
    e.payload.source == source && e.payload.permalink == permalink)

/-- Modelled from the spec: `Store.WhichAreNew` — called from `doit` in
`main.go` ("cull out the ones we've already got") — returns the
candidates whose (topic, permalink) pair has never been persisted,
preserving input order. -/
def Store.WhichAreNew (s : Store) (prs : List PressRelease) :
    List PressRelease :=
  prs.filter (fun pr => ! s.hasKey pr.source pr.permalink)

/-- Modelled from the spec: `Store.Stash` — called from `doit` in
`main.go` — durably appends the item under the next sequence
identifier and returns the persisted event. -/
def Store.Stash (s : Store) (pr : PressRelease) : Event × Store :=
  let ev : Event := ⟨s.maxId + 1, pr.source, pr⟩
  (ev, ⟨s.events ++ [ev]⟩)

/-- Modelled from the spec: reopening the store over the same
underlying storage after a process restart (the `NewStore` call in
`main.go`): the persisted events survive unchanged. -/
def NewStore (persisted : List Event) : Store :=
  ⟨persisted⟩

/-- Modelled from the spec: `replaySince` — the Store's `Replay`
method, used by the eventsource server registered in `main.go` — all
persisted events for the channel with identifier strictly greater than
the cursor, in stored order. -/
def Store.Replay (s : Store) (channel : String) (cursor : Nat) :
    List Event :=
  s.events.filter (fun e => e.channel == channel && decide (cursor < e.id))

/-- Embedding of the Go struct `html.Attribute` as used by `getAttr`
(the namespace field plays no role there). -/
structure Attribute where
  key : String
  val : String
deriving Repr, DecidableEq

/-- An HTML node as far as `getAttr` observes it: its attribute list. -/
structure HtmlNode where
  attr : List Attribute
deriving Repr, DecidableEq

/-- The loop body of `getAttr`: scan the attribute list in order and
return the value of the first attribute whose key matches. -/
def lookupAttr (attrs : List Attribute) (key : String) : String :=
  match attrs with
  | [] => ""
  | a :: rest => if a.key = key then a.val else lookupAttr rest key

/-- Embedding of `getAttr` from the unnamed HTML-helpers file:
"retrieved the value of an attribute on a node.  Returns empty string
if attribute doesn't exist." -/
def getAttr (n : HtmlNode) (attr : String) : String :=
  lookupAttr n.attr attr

/-- A scraper, as `doit` observes it during one cycle: its name, the
outcome of `FetchList()` (Go: a slice of press releases or an error),
and the outcome of the `scrape` helper on an individual press release
(Go: `scrape` performs `http.Get` on the permalink and then
`scraper.Scrape(pr, html)`, mutating `pr` in place; here the mutated
press release is returned).  Errors are modelled as strings. -/
structure ScraperModel where
  name : String
  fetchList : Except String (List PressRelease)
  scrapeResult : PressRelease → Except String PressRelease

/-- Observable steps of one ingestion cycle, recorded in order.
`scraped pl ok` is one invocation of the `scrape` helper on the item
with original permalink `pl`; `stashed id pl` is `store.Stash`
returning the event with identifier `id`; `published id ch` is
`sseSrv.Publish([]string{ch}, ev)` with `ev.id = id`. -/
inductive Action where
  | fetched (count : Nat)
  | filtered (count : Nat)
  | scraped (permalink : String) (ok : Bool)
  | stashed (id : Nat) (permalink : String)
  | published (id : Nat) (channel : String)
deriving Repr, DecidableEq

/-- Result of the Go `panic` versus normal completion: `doit` panics
when `FetchList` fails, and the goroutine that calls it in `main` has
no `recover`, so the panic terminates the process. -/
inductive Outcome (α : Type) where
  | ok (a : α) : Outcome α
  | panicked (msg : String) : Outcome α
deriving Repr, DecidableEq

/-- Accumulated state of one cycle: the store, the events published to
the hub (in order) and the trace of observable steps. -/
structure CycleState where
  store : Store
  published : List Event
  trace : List Action
deriving Repr, DecidableEq

/-- The one-step completion attempt of the per-item loop in `doit`:
an already complete press release passes through; otherwise `scrape`
runs and, on success, the press release is marked complete. -/
def completeStep (scraper : ScraperModel) (pr : PressRelease) :
    Except String PressRelease :=
  if pr.complete then Except.ok pr
  else match scraper.scrapeResult pr with
    | Except.error e => Except.error e
    | Except.ok pr2 => Except.ok { pr2 with complete := true }

/-- The body of the per-item loop in `doit` (`main.go`): if the press
release is not complete, run `scrape`; on error, log and `continue`
(the item is dropped); on success set `complete = true`.  Then stash
the press release and publish the returned event on its source
channel. -/
def processItem (scraper : ScraperModel) (acc : CycleState)
    (pr : PressRelease) : CycleState :=
  match completeStep scraper pr with
  | Except.error _ =>
      { acc with trace := acc.trace ++ [Action.scraped pr.permalink false] }
  | Except.ok pr2 =>
      let scrapeActs : List Action :=
        if pr.complete then [] else [Action.scraped pr.permalink true]
      let res := acc.store.Stash pr2
      { store := res.2
        published := acc.published ++ [res.1]
        trace := acc.trace ++ scrapeActs ++
          [Action.stashed res.1.id pr2.permalink,
           Action.published res.1.id pr2.source] }

/-- The per-item loop of `doit` over the list of new press releases. -/
def runItems (scraper : ScraperModel) (acc : CycleState)
    (prs : List PressRelease) : CycleState :=
  prs.foldl (processItem scraper) acc

/-- Embedding of `doit` (`main.go`): fetch the candidate list
(panicking on error, as the Go code does), cull out the already-seen
ones with `store.WhichAreNew`, then for each remaining item complete
it if necessary, stash it and publish it. -/
def doit (scraper : ScraperModel) (s : Store) : Outcome CycleState :=
  match scraper.fetchList with
  | Except.error e => Outcome.panicked e
  | Except.ok prs =>
      let newOnes := s.WhichAreNew prs
      Outcome.ok (runItems scraper
        { store := s
          published := []
          trace := [Action.fetched prs.length,
                    Action.filtered newOnes.length] }
        newOnes)

/-- Start/finish markers of the ingestion cycles run by the scraper
goroutine in `main`, used to express (non-)overlap of cycles. -/
inductive CycleMark where
  | start (topic : String)
  | finish (topic : String)
deriving Repr, DecidableEq

/-- One pass of the inner loop of the scraper goroutine in `main`
(`for _, scraper := range scrapers { doit(scraper, store, sseSrv) }`):
the cycles run one after another in a single goroutine.  A panic in
`doit` kills the goroutine (and the process), so no further cycle
starts. -/
def runRound (scrapers : List ScraperModel) (s : Store) :
    Outcome Store × List CycleMark :=
  match scrapers with
  | [] => (Outcome.ok s, [])
  | scraper :: rest =>
      match doit scraper s with
      | Outcome.panicked e =>
          (Outcome.panicked e, [CycleMark.start scraper.name])
      | Outcome.ok r =>
          let next := runRound rest r.store
          (next.1,
           CycleMark.start scraper.name :: CycleMark.finish scraper.name ::
             next.2)

/-- `n` passes of the scraper goroutine's outer `for` loop (the
`time.Sleep` between passes is irrelevant to ordering). -/
def runRounds (n : Nat) (scrapers : List ScraperModel) (s : Store) :
    Outcome Store × List CycleMark :=
  match n with
  | 0 => (Outcome.ok s, [])
  | Nat.succ m =>
      match runRound scrapers s with
      | (Outcome.panicked e, ms) => (Outcome.panicked e, ms)
      | (Outcome.ok s2, ms) =>
          let next := runRounds m scrapers s2
          (next.1, ms ++ next.2)

/-- A cycle-mark trace is serialized when every started cycle finishes
before the next one starts; a final `start` with nothing after it is
the process dying mid-cycle. -/
def checkSerial (ms : List CycleMark) : Bool :=
  match ms with
  | [] => true
  | [CycleMark.start _] => true
  | CycleMark.start t :: CycleMark.finish t2 :: rest =>
      t == t2 && checkSerial rest
  | _ => false

/-- A publish-after-persist trace check: every `published` action is
immediately preceded by a `stashed` action carrying the same sequence
identifier. -/
def checkPub (ms : List Action) : Bool :=
  match ms with
  | [] => true
  | Action.stashed id _ :: Action.published id2 _ :: rest =>
      id == id2 && checkPub rest
  | Action.published _ _ :: _ => false
  | _ :: rest => checkPub rest

/-- Modelled from the spec and `main.go`'s package comment: the
backlog a subscriber receives at connect time.  "Without
last-event-id, the client will be served only new press releases as
they come in"; with a Last-Event-ID header the store replays the
archived events after that cursor, and the documented example
`Last-Event-ID: 0` "will serve up _all_ the stored press releases". -/
def subscribeBacklog (s : Store) (channel : String)
    (lastEventId : Option Nat) : List Event :=
  match lastEventId with
  | none => []
  | some c => s.Replay channel c

/-- Modelled from the spec: the full stream a subscriber receives on a
connection that stays open: the connect-time backlog followed by the
events subsequently published on its channel. -/
def receivedStream (s : Store) (channel : String)
    (lastEventId : Option Nat) (laterPubs : List Event) : List Event :=
  subscribeBacklog s channel lastEventId ++
    laterPubs.filter (fun e => e.channel == channel)

/-- A history of store operations: `stash` calls interleaved with
process restarts over the same underlying storage. -/
inductive StoreOp where
  | stash (pr : PressRelease)
  | restart
deriving Repr, DecidableEq

/-- Run a history of store operations, collecting the sequence
identifiers assigned by the successful `Stash` calls in call order.
`restart` reopens the store over the surviving persisted events. -/
def runOps (s : Store) (ops : List StoreOp) : Store × List Nat :=
  match ops with
  | [] => (s, [])
  | StoreOp.stash pr :: rest =>
      let r := s.Stash pr
      let next := runOps r.2 rest
      (next.1, r.1.id :: next.2)
  | StoreOp.restart :: rest => runOps (NewStore s.events) rest

/-- The sequence identifiers assigned along a history, in call order. -/
def assignedIds (s : Store) (ops : List StoreOp) : List Nat :=
  (runOps s ops).2

/-- Persist every press release of a list via `Stash`, in order. -/
def stashAll (s : Store) (prs : List PressRelease) : Store :=
  prs.foldl (fun st pr => (st.Stash pr).2) s

/-- The store invariant maintained by `Stash`: persisted events appear
in strictly ascending sequence-identifier order. -/
def StoreWF (s : Store) : Prop :=
  List.Pairwise (fun a b : Event => a.id < b.id) s.events

/-- A concrete complete press release on the "tesco" channel. -/
def demoPR : PressRelease :=
  ⟨"T1", "tesco", "http://a/1", 0, "c1", true⟩

/-- A second concrete complete press release on the "tesco" channel. -/
def demoPR2 : PressRelease :=
  ⟨"T2", "tesco", "http://a/2", 0, "c2", true⟩

/-- A concrete incomplete press release whose scrape will fail. -/
def badPR : PressRelease :=
  ⟨"", "tesco", "http://a/bad", 0, "", false⟩

/-- The persisted event holding `demoPR` under sequence identifier 1. -/
def demoEv : Event := ⟨1, "tesco", demoPR⟩

/-- The persisted event holding `demoPR2` under sequence identifier 2. -/
def demoEv2 : Event := ⟨2, "tesco", demoPR2⟩

/-- A store that has already persisted `demoPR` as event 1. -/
def demoStore : Store := ⟨[demoEv]⟩

/-- A store that has persisted `demoPR` and `demoPR2` as events 1, 2. -/
def demoStoreTwo : Store := ⟨[demoEv, demoEv2]⟩

/-- A scraper whose listing succeeds with one complete item. -/
def okScr : ScraperModel :=
  ⟨"tesco", Except.ok [demoPR2], fun pr => Except.ok pr⟩

/-- A scraper whose listing fails, as when the index page is down. -/
def errScr : ScraperModel :=
  ⟨"tesco", Except.error "connection refused", fun pr => Except.ok pr⟩

/-- A scraper listing one incomplete item whose scrape fails with a
404 and one complete item. -/
def mixedScr : ScraperModel :=
  ⟨"tesco", Except.ok [badPR, demoPR2],
   fun pr => if pr.permalink == "http://a/bad"
     then Except.error "404" else Except.ok pr⟩

/-- The cycle state `doit mixedScr demoStore` ends in: the bad item is
skipped, the complete item is stashed as event 2 and published. -/
def mixedRes : CycleState :=
  { store := ⟨[demoEv, demoEv2]⟩
    published := [demoEv2]
    trace := [Action.fetched 2, Action.filtered 2,
              Action.scraped "http://a/bad" false,
              Action.stashed 2 "http://a/2",
              Action.published 2 "tesco"] }

/-- The cycle state `doit okScr demoStore` ends in. -/
def okRes : CycleState :=
  { store := ⟨[demoEv, demoEv2]⟩
    published := [demoEv2]
    trace := [Action.fetched 1, Action.filtered 1,
              Action.stashed 2 "http://a/2",
              Action.published 2 "tesco"] }

lemma foldr_max_base (l : List Event) (b : Nat) :
    l.foldr (fun e m => max e.id m) b =
      max (l.foldr (fun e m => max e.id m) 0) b := by
  induction l with
  | nil => simp
  | cons a l ih => simp [ih, Nat.max_assoc]

lemma id_le_foldr (l : List Event) (e : Event) (h : e ∈ l) :
    e.id ≤ l.foldr (fun e m => max e.id m) 0 := by
  induction l with
  | nil => cases h
  | cons a l ih =>
      rcases List.mem_cons.mp h with h1 | h2
      · subst h1; exact Nat.le_max_left _ _
      · exact le_trans (ih h2) (Nat.le_max_right _ _)

lemma id_le_maxId {s : Store} {e : Event} (h : e ∈ s.events) :
    e.id ≤ s.maxId :=
  id_le_foldr s.events e h

lemma stash_fst (s : Store) (pr : PressRelease) :
    (s.Stash pr).1 = ⟨s.maxId + 1, pr.source, pr⟩ := rfl

lemma stash_snd (s : Store) (pr : PressRelease) :
    (s.Stash pr).2 = ⟨s.events ++ [⟨s.maxId + 1, pr.source, pr⟩]⟩ := rfl

lemma maxId_append (l : List Event) (ev : Event) :
    (⟨l ++ [ev]⟩ : Store).maxId = max (⟨l⟩ : Store).maxId ev.id := by
  show (l ++ [ev]).foldr (fun e m => max e.id m) 0 = _
  rw [List.foldr_append]
  simp only [List.foldr_cons, List.foldr_nil, Nat.max_zero]
  rw [foldr_max_base]
  rfl

lemma maxId_stash (s : Store) (pr : PressRelease) :
    ((s.Stash pr).2).maxId = s.maxId + 1 := by
  rw [stash_snd, maxId_append]
  exact Nat.max_eq_right (Nat.le_succ _)

lemma assignedIds_spec (ops : List StoreOp) :
    ∀ s : Store, (∀ i ∈ assignedIds s ops, s.maxId < i) ∧
      List.Pairwise (fun a b => a < b) (assignedIds s ops) := by
  induction ops with
  | nil => intro s; simp [assignedIds, runOps]
  | cons op rest ih =>
      intro s
      cases op with
      | stash pr =>
          have hassigned : assignedIds s (StoreOp.stash pr :: rest) =
              (s.maxId + 1) :: assignedIds (s.Stash pr).2 rest := rfl
          rw [hassigned]
          obtain ⟨ih1, ih2⟩ := ih (s.Stash pr).2
          rw [maxId_stash] at ih1
          constructor
          · intro i hi
            rcases List.mem_cons.mp hi with h | h
            · omega
            · have := ih1 i h; omega
          · refine List.Pairwise.cons ?_ ih2
            intro i hi
            have := ih1 i hi; omega
      | restart =>
          have heq : assignedIds s (StoreOp.restart :: rest) =
              assignedIds s rest := rfl
          rw [heq]; exact ih s

/-- Claim C3: across any history of `Stash` calls, including histories
interrupted by process restarts over the same underlying storage, the
assigned sequence identifiers are strictly increasing in call order,
so no identifier is ever assigned twice. -/
theorem stash_ids_strictly_increasing (s : Store) (ops : List StoreOp) :
    List.Pairwise (fun a b => a < b) (assignedIds s ops) ∧
      (assignedIds s ops).Nodup := by
  obtain ⟨_, h2⟩ := assignedIds_spec ops s
  exact ⟨h2, h2.imp (fun h => Nat.ne_of_lt h)⟩

lemma hasKey_iff {s : Store} {a b : String} :
    s.hasKey a b = true ↔
      ∃ e ∈ s.events, e.payload.source = a ∧ e.payload.permalink = b := by
  unfold Store.hasKey
  rw [List.any_eq_true]
  constructor
  · rintro ⟨e, he, hf⟩
    simp only [Bool.and_eq_true, beq_iff_eq] at hf
    exact ⟨e, he, hf⟩
  · rintro ⟨e, he, h1, h2⟩
    exact ⟨e, he, by simp [h1, h2]⟩

lemma hasKey_stash_mono {s : Store} {a b : String} (pr : PressRelease)
    (h : s.hasKey a b = true) : ((s.Stash pr).2).hasKey a b = true := by
  rw [stash_snd, hasKey_iff]
  obtain ⟨e, he, h1, h2⟩ := hasKey_iff.mp h
  exact ⟨e, List.mem_append_left _ he, h1, h2⟩

lemma hasKey_stash_self (s : Store) (pr : PressRelease) :
    ((s.Stash pr).2).hasKey pr.source pr.permalink = true := by
  rw [stash_snd, hasKey_iff]
  exact ⟨⟨s.maxId + 1, pr.source, pr⟩, by simp, rfl, rfl⟩

lemma hasKey_stashAll_mono (prs : List PressRelease) :
    ∀ (s : Store) (a b : String), s.hasKey a b = true →
      (stashAll s prs).hasKey a b = true := by
  induction prs with
  | nil => intro s a b h; exact h
  | cons pr rest ih =>
      intro s a b h
      exact ih _ a b (hasKey_stash_mono pr h)

lemma hasKey_stashAll_mem (prs : List PressRelease) :
    ∀ (s : Store) (pr : PressRelease), pr ∈ prs →
      (stashAll s prs).hasKey pr.source pr.permalink = true := by
  induction prs with
  | nil => intro s pr h; cases h
  | cons q rest ih =>
      intro s pr h
      rcases List.mem_cons.mp h with h1 | h2
      · subst h1
        exact hasKey_stashAll_mono rest _ _ _ (hasKey_stash_self s pr)
      · exact ih _ pr h2

/-- Claim C4: for any list of candidates `C`, running `WhichAreNew` on
`C`, persisting every returned item via `Stash`, and running
`WhichAreNew` on `C` again returns the empty list: dedup is idempotent
with respect to the (topic, permalink) key. -/
theorem filterNew_stash_idempotent (s : Store) (C : List PressRelease) :
    (stashAll s (s.WhichAreNew C)).WhichAreNew C = [] := by
  show C.filter
      (fun pr =>
        ! (stashAll s (s.WhichAreNew C)).hasKey pr.source pr.permalink) = []
  rw [List.filter_eq_nil_iff]
  intro pr hpr
  simp only [Bool.not_eq_true', Bool.not_eq_false]
  by_cases h : s.hasKey pr.source pr.permalink = true
  · exact hasKey_stashAll_mono _ _ _ _ h
  · have hmem : pr ∈ s.WhichAreNew C := by
      show pr ∈ C.filter _
      rw [List.mem_filter]
      refine ⟨hpr, ?_⟩
      simp only [Bool.not_eq_true] at h
      simp [h]
    exact hasKey_stashAll_mem _ _ pr hmem

lemma mem_Replay_iff {s : Store} {ch : String} {c : Nat} {e : Event} :
    e ∈ s.Replay ch c ↔ e ∈ s.events ∧ e.channel = ch ∧ c < e.id := by
  show e ∈ s.events.filter _ ↔ _
  rw [List.mem_filter]
  simp [Bool.and_eq_true, beq_iff_eq, decide_eq_true_iff, and_assoc]

lemma Replay_sorted {s : Store} (hwf : StoreWF s) (ch : String) (c : Nat) :
    List.Pairwise (fun a b : Event => a.id < b.id) (s.Replay ch c) :=
  List.Pairwise.sublist (List.filter_sublist _) hwf

lemma StoreWF_stash {s : Store} (hwf : StoreWF s) (pr : PressRelease) :
    StoreWF (s.Stash pr).2 := by
  rw [stash_snd]
  show List.Pairwise _ (s.events ++ [_])
  rw [List.pairwise_append]
  refine ⟨hwf, List.pairwise_singleton _ _, ?_⟩
  intro a ha b hb
  simp only [List.mem_singleton] at hb
  subst hb
  have := id_le_maxId ha
  show a.id < s.maxId + 1
  omega

lemma StoreWF_runOps (ops : List StoreOp) :
    ∀ s : Store, StoreWF s → StoreWF (runOps s ops).1 := by
  induction ops with
  | nil => intro s h; exact h
  | cons op rest ih =>
      intro s h
      cases op with
      | stash pr => exact ih _ (StoreWF_stash h pr)
      | restart => exact ih s h

/-- Claim C5: for every topic and cursor, `Replay` returns exactly the
persisted events of that topic with sequence identifier strictly
greater than the cursor — none omitted — in strictly ascending
identifier order (the store invariant `StoreWF` is maintained by every
`Stash`, see `StoreWF_stash` and `StoreWF_runOps`). -/
theorem replaySince_exact (s : Store) (ch : String) (c : Nat)
    (hwf : StoreWF s) :
    (∀ e : Event, e ∈ s.Replay ch c ↔
      e ∈ s.events ∧ e.channel = ch ∧ c < e.id) ∧
    List.Pairwise (fun a b : Event => a.id < b.id) (s.Replay ch c) :=
  ⟨fun _ => mem_Replay_iff, Replay_sorted hwf ch c⟩

/-- Witness for `replaySince_exact` at a concrete two-event store. -/
theorem replaySince_exact_witness :
    StoreWF demoStoreTwo ∧
      List.Pairwise (fun a b : Event => a.id < b.id)
        (demoStoreTwo.Replay "tesco" 0) ∧
      demoEv ∈ demoStoreTwo.Replay "tesco" 0 := by
  have hwf : StoreWF demoStoreTwo := by
    show List.Pairwise _ [demoEv, demoEv2]
    simp [List.pairwise_cons, demoEv, demoEv2]
  refine ⟨hwf, (replaySince_exact demoStoreTwo "tesco" 0 hwf).2, ?_⟩
  exact ((replaySince_exact demoStoreTwo "tesco" 0 hwf).1 demoEv).mpr
    ⟨by simp [demoStoreTwo], rfl, by simp [demoEv]⟩

/-- Claim C1 counterexample: it is not true that a connection whose
resume identifier is absent or zero sees no replay.  A subscriber to
"tesco" with Last-Event-ID 0 over a store already holding event 1
receives that previously persisted event even though nothing is
published after it subscribes — exactly the behaviour `main.go`'s
package comment documents for `Last-Event-ID: 0`. -/
theorem zero_cursor_not_live_only :
    ¬ (∀ (s : Store) (ch : String) (c : Option Nat) (later : List Event),
        (c = none ∨ c = some 0) →
        ∀ e ∈ receivedStream s ch c later, e ∈ later) := by
  intro h
  have h2 := h demoStore "tesco" (some 0) [] (Or.inr rfl) demoEv (by decide)
  exact (List.not_mem_nil demoEv) h2

/-- Claim C1 (amended): a connection that supplies no resume
identifier is live-only — it receives only events published after it
subscribed; a connection that supplies a resume identifier `c`,
including zero, additionally receives the replay of every persisted
event of its topic with identifier greater than `c` (so zero replays
the topic's whole archive). -/
theorem no_cursor_live_only (s : Store) (ch : String)
    (later : List Event) :
    (∀ e ∈ receivedStream s ch none later, e ∈ later) ∧
    (∀ (c : Nat) (e : Event), e ∈ s.events → e.channel = ch →
      c < e.id → e ∈ receivedStream s ch (some c) later) := by
  constructor
  · intro e he
    have : e ∈ later.filter (fun e => e.channel == ch) := he
    exact (List.mem_filter.mp this).1
  · intro c e he hch hc
    have : e ∈ s.Replay ch c := mem_Replay_iff.mpr ⟨he, hch, hc⟩
    exact List.mem_append_left _ this

/-- Witness for `no_cursor_live_only`: over a store holding event 1,
a live-only subscriber given one later publish receives exactly it,
and a cursor-0 subscriber receives the archived event 1. -/
theorem no_cursor_live_only_witness :
    demoEv2 ∈ receivedStream demoStore "tesco" none [demoEv2] ∧
      demoEv2 ∈ [demoEv2] ∧
      demoEv ∈ demoStore.events ∧
      demoEv ∈ receivedStream demoStore "tesco" (some 0) [] := by
  refine ⟨by decide, ?_, by decide, ?_⟩
  · exact (no_cursor_live_only demoStore "tesco" [demoEv2]).1 demoEv2
      (by decide)
  · exact (no_cursor_live_only demoStore "tesco" []).2 0 demoEv
      (by decide) rfl (by decide)

/-- Claim C2: the claim that a `FetchList` failure leaves the process
alive and merely retried is contradicted by the code: `doit` calls
`panic(err)` on a `FetchList` error, and the scraper goroutine in
`main` has no `recover`, so the panic kills the process.  Evaluating
the embedded `doit` on a scraper whose listing fails shows the panic
outcome, with no item processed and no retry possible. -/
theorem fetchList_error_panics :
    doit errScr ⟨[]⟩ = Outcome.panicked "connection refused" := rfl

lemma processItem_error {scraper : ScraperModel} {pr : PressRelease}
    {msg : String} (h : completeStep scraper pr = Except.error msg) :
    ∀ acc : CycleState, processItem scraper acc pr =
      { acc with
        trace := acc.trace ++ [Action.scraped pr.permalink false] } := by
  intro acc
  unfold processItem
  rw [h]

lemma processItem_ok {scraper : ScraperModel} {pr pr2 : PressRelease}
    (h : completeStep scraper pr = Except.ok pr2) :
    ∀ acc : CycleState, processItem scraper acc pr =
      { store := (acc.store.Stash pr2).2
        published := acc.published ++ [(acc.store.Stash pr2).1]
        trace := acc.trace ++
          ((if pr.complete then []
            else [Action.scraped pr.permalink true]) ++
           [Action.stashed (acc.store.Stash pr2).1.id pr2.permalink,
            Action.published (acc.store.Stash pr2).1.id pr2.source]) } := by
  intro acc
  unfold processItem
  rw [h]
  simp [List.append_assoc]

lemma runItems_cons (scraper : ScraperModel) (acc : CycleState)
    (pr : PressRelease) (rest : List PressRelease) :
    runItems scraper acc (pr :: rest) =
      runItems scraper (processItem scraper acc pr) rest := rfl

lemma runItems_append (scraper : ScraperModel) (acc : CycleState)
    (l1 l2 : List PressRelease) :
    runItems scraper acc (l1 ++ l2) =
      runItems scraper (runItems scraper acc l1) l2 :=
  List.foldl_append _ _ _ _

lemma runItems_factor (scraper : ScraperModel) (prs : List PressRelease) :
    ∀ (st : Store) (p : List Event) (t : List Action),
      runItems scraper ⟨st, p, t⟩ prs =
        ⟨(runItems scraper ⟨st, [], []⟩ prs).store,
         p ++ (runItems scraper ⟨st, [], []⟩ prs).published,
         t ++ (runItems scraper ⟨st, [], []⟩ prs).trace⟩ := by
  induction prs with
  | nil => intro st p t; simp [runItems]
  | cons pr rest ih =>
      intro st p t
      rw [runItems_cons, runItems_cons]
      cases h : completeStep scraper pr with
      | error msg =>
          simp [processItem_error h,
                ih st p (t ++ [Action.scraped pr.permalink false]),
                ih st [] [Action.scraped pr.permalink false]]
      | ok pr2 =>
          simp [processItem_ok h,
                ih (st.Stash pr2).2 (p ++ [(st.Stash pr2).1])
                  (t ++ ((if pr.complete then []
                          else [Action.scraped pr.permalink true]) ++
                    [Action.stashed (st.Stash pr2).1.id pr2.permalink,
                     Action.published (st.Stash pr2).1.id pr2.source])),
                ih (st.Stash pr2).2 [(st.Stash pr2).1]
                  ((if pr.complete then []
                    else [Action.scraped pr.permalink true]) ++
                    [Action.stashed (st.Stash pr2).1.id pr2.permalink,
                     Action.published (st.Stash pr2).1.id pr2.source])]

lemma completeStep_ok_complete {scraper : ScraperModel}
    {pr pr2 : PressRelease}
    (h : completeStep scraper pr = Except.ok pr2) :
    pr2.complete = true := by
  unfold completeStep at h
  by_cases hc : pr.complete = true
  · rw [if_pos hc] at h
    injection h with h2
    subst h2; exact hc
  · rw [if_neg hc] at h
    cases hs : scraper.scrapeResult pr with
    | error e => rw [hs] at h; cases h
    | ok q =>
        rw [hs] at h
        injection h with h2
        subst h2; rfl

lemma completeStep_permalink {scraper : ScraperModel}
    {pr pr2 : PressRelease}
    (hpres : ∀ q q2, scraper.scrapeResult q = Except.ok q2 →
      q2.permalink = q.permalink)
    (h : completeStep scraper pr = Except.ok pr2) :
    pr2.permalink = pr.permalink := by
  unfold completeStep at h
  by_cases hc : pr.complete = true
  · rw [if_pos hc] at h
    injection h with h2
    subst h2; rfl
  · rw [if_neg hc] at h
    cases hs : scraper.scrapeResult pr with
    | error e => rw [hs] at h; cases h
    | ok q =>
        rw [hs] at h
        injection h with h2
        subst h2
        exact hpres pr q hs

lemma runItems_pub_in_store (scraper : ScraperModel)
    (prs : List PressRelease) :
    ∀ acc : CycleState, (∀ e ∈ acc.published, e ∈ acc.store.events) →
      ∀ e ∈ (runItems scraper acc prs).published,
        e ∈ (runItems scraper acc prs).store.events := by
  induction prs with
  | nil => intro acc hinv e he; exact hinv e he
  | cons pr rest ih =>
      intro acc hinv
      rw [runItems_cons]
      cases hc : completeStep scraper pr with
      | error msg =>
          rw [processItem_error hc]
          exact ih _ hinv
      | ok pr2 =>
          rw [processItem_ok hc]
          apply ih
          intro e he
          rcases List.mem_append.mp he with h1 | h1
          · have h2 := hinv e h1
            show e ∈ ((acc.store.Stash pr2).2).events
            rw [stash_snd]
            exact List.mem_append_left _ h2
          · simp only [List.mem_singleton] at h1
            subst h1
            show (acc.store.Stash pr2).1 ∈ ((acc.store.Stash pr2).2).events
            rw [stash_fst, stash_snd]
            simp

lemma runItems_complete_inv (scraper : ScraperModel)
    (prs : List PressRelease) :
    ∀ acc : CycleState,
      (∀ e ∈ (runItems scraper acc prs).store.events,
        e ∈ acc.store.events ∨ e.payload.complete = true) ∧
      (∀ e ∈ (runItems scraper acc prs).published,
        e ∈ acc.published ∨ e.payload.complete = true) := by
  induction prs with
  | nil =>
      intro acc
      exact ⟨fun e he => Or.inl he, fun e he => Or.inl he⟩
  | cons pr rest ih =>
      intro acc
      rw [runItems_cons]
      cases hc : completeStep scraper pr with
      | error msg =>
          rw [processItem_error hc]
          exact ih _
      | ok pr2 =>
          rw [processItem_ok hc]
          obtain ⟨ihs, ihp⟩ := ih
            { store := (acc.store.Stash pr2).2
              published := acc.published ++ [(acc.store.Stash pr2).1]
              trace := acc.trace ++
                ((if pr.complete then []
                  else [Action.scraped pr.permalink true]) ++
                 [Action.stashed (acc.store.Stash pr2).1.id pr2.permalink,
                  Action.published (acc.store.Stash pr2).1.id pr2.source]) }
          constructor
          · intro e he
            rcases ihs e he with h | h
            · rcases List.mem_append.mp h with h2 | h2
              · exact Or.inl h2
              · simp only [List.mem_singleton] at h2
                subst h2
                exact Or.inr (completeStep_ok_complete hc)
            · exact Or.inr h
          · intro e he
            rcases ihp e he with h | h
            · rcases List.mem_append.mp h with h2 | h2
              · exact Or.inl h2
              · simp only [List.mem_singleton] at h2
                subst h2
                exact Or.inr (completeStep_ok_complete hc)
            · exact Or.inr h

lemma doit_ok {scraper : ScraperModel} {prs : List PressRelease}
    (h : scraper.fetchList = Except.ok prs) (s : Store) :
    doit scraper s = Outcome.ok (runItems scraper
      ⟨s, [], [Action.fetched prs.length,
               Action.filtered (s.WhichAreNew prs).length]⟩
      (s.WhichAreNew prs)) := by
  unfold doit
  rw [h]

lemma runItems_skip_mid (scraper : ScraperModel)
    (pre post : List PressRelease) (bad : PressRelease) (msg : String)
    (hcs : completeStep scraper bad = Except.error msg) :
    ∀ acc : CycleState,
      (runItems scraper acc (pre ++ bad :: post)).store =
        (runItems scraper acc (pre ++ post)).store ∧
      (runItems scraper acc (pre ++ bad :: post)).published =
        (runItems scraper acc (pre ++ post)).published ∧
      Action.scraped bad.permalink false ∈
        (runItems scraper acc (pre ++ bad :: post)).trace := by
  intro acc
  rw [runItems_append, runItems_append, runItems_cons,
      processItem_error hcs]
  generalize runItems scraper acc pre = mid
  cases mid with
  | mk mst mp mt =>
      rw [runItems_factor scraper post mst mp
            (mt ++ [Action.scraped bad.permalink false]),
          runItems_factor scraper post mst mp mt]
      simp

/-- Claim C6: an item whose completion (`scrape`) fails is skipped and
only logged: the final store and the published events are exactly those
of the cycle run without that item, and the failure is recorded in the
trace, so the remaining items of the cycle are still processed. -/
theorem item_failure_skipped (scraper : ScraperModel) (s : Store)
    (prs pre post : List PressRelease) (bad : PressRelease)
    (msg : String) (r : CycleState)
    (hfetch : scraper.fetchList = Except.ok prs)
    (hnew : s.WhichAreNew prs = pre ++ bad :: post)
    (hc : bad.complete = false)
    (hs : scraper.scrapeResult bad = Except.error msg)
    (hr : doit scraper s = Outcome.ok r) :
    r.store = (runItems scraper ⟨s, [], []⟩ (pre ++ post)).store ∧
    r.published =
      (runItems scraper ⟨s, [], []⟩ (pre ++ post)).published ∧
    Action.scraped bad.permalink false ∈ r.trace := by
  have hcs : completeStep scraper bad = Except.error msg := by
    unfold completeStep
    rw [if_neg (by simp [hc]), hs]
  rw [doit_ok hfetch] at hr
  injection hr with h2
  subst h2
  rw [hnew]
  obtain ⟨h1, h2, h3⟩ := runItems_skip_mid scraper pre post bad msg hcs
    ⟨s, [], [Action.fetched prs.length,
             Action.filtered (pre ++ bad :: post).length]⟩
  refine ⟨?_, ?_, h3⟩
  · rw [h1, runItems_factor, runItems_factor]
  · rw [h2, runItems_factor, runItems_factor]
    simp

/-- Claim C9: every event a cycle publishes carries a payload with the
complete flag set, and every event in the store after the cycle either
was already persisted before it or has its complete flag set: an
incomplete item is either completed before being stashed or skipped. -/
theorem stashed_items_complete (scraper : ScraperModel) (s : Store)
    (r : CycleState) (hr : doit scraper s = Outcome.ok r) :
    (∀ e ∈ r.published, e.payload.complete = true) ∧
    (∀ e ∈ r.store.events, e ∈ s.events ∨ e.payload.complete = true) := by
  unfold doit at hr
  cases hf : scraper.fetchList with
  | error e => rw [hf] at hr; cases hr
  | ok prs =>
      rw [hf] at hr
      injection hr with h2
      subst h2
      obtain ⟨hst, hpub⟩ := runItems_complete_inv scraper
        (s.WhichAreNew prs)
        ⟨s, [], [Action.fetched prs.length,
                 Action.filtered (s.WhichAreNew prs).length]⟩
      constructor
      · intro e he
        rcases hpub e he with h | h
        · cases h
        · exact h
      · intro e he
        rcases hst e he with h | h
        · exact Or.inl h
        · exact Or.inr h

/-- Witness for `stashed_items_complete`: the mixed cycle publishes
event 2, whose payload is complete. -/
theorem stashed_items_complete_witness :
    doit mixedScr demoStore = Outcome.ok mixedRes ∧
      demoEv2 ∈ mixedRes.published ∧
      demoEv2.payload.complete = true := by
  refine ⟨by decide, by decide, ?_⟩
  exact (stashed_items_complete mixedScr demoStore mixedRes
    (by decide)).1 demoEv2 (by decide)

/-- Witness for `item_failure_skipped`: in the mixed cycle the item
with the failing scrape leaves no mark on the store or the published
events, while the other item is still processed. -/
theorem item_failure_skipped_witness :
    mixedScr.fetchList = Except.ok [badPR, demoPR2] ∧
      demoStore.WhichAreNew [badPR, demoPR2] = [] ++ badPR :: [demoPR2] ∧
      badPR.complete = false ∧
      mixedScr.scrapeResult badPR = Except.error "404" ∧
      doit mixedScr demoStore = Outcome.ok mixedRes ∧
      mixedRes.store =
        (runItems mixedScr ⟨demoStore, [], []⟩ ([] ++ [demoPR2])).store ∧
      Action.scraped badPR.permalink false ∈ mixedRes.trace := by
  have h := item_failure_skipped mixedScr demoStore [badPR, demoPR2] []
    [demoPR2] badPR "404" mixedRes rfl (by decide) rfl rfl
    (by decide)
  exact ⟨rfl, by decide, rfl, rfl, by decide, h.1, h.2.2⟩

lemma checkPub_fetched (n : Nat) (l : List Action) :
    checkPub (Action.fetched n :: l) = checkPub l := rfl

lemma checkPub_filtered (n : Nat) (l : List Action) :
    checkPub (Action.filtered n :: l) = checkPub l := rfl

lemma checkPub_scraped (pl : String) (b : Bool) (l : List Action) :
    checkPub (Action.scraped pl b :: l) = checkPub l := rfl

lemma checkPub_stashed_published (i j : Nat) (pl ch : String)
    (l : List Action) :
    checkPub (Action.stashed i pl :: Action.published j ch :: l) =
      ((i == j) && checkPub l) := rfl

lemma runItems_trace_cons (scraper : ScraperModel) (pr : PressRelease)
    (rest : List PressRelease) (st : Store) :
    (runItems scraper ⟨st, [], []⟩ (pr :: rest)).trace =
      (processItem scraper ⟨st, [], []⟩ pr).trace ++
        (runItems scraper
          ⟨(processItem scraper ⟨st, [], []⟩ pr).store, [], []⟩
          rest).trace := by
  rw [runItems_cons]
  generalize processItem scraper ⟨st, [], []⟩ pr = acc2
  cases acc2 with
  | mk st2 p2 t2 => rw [runItems_factor]

lemma checkPub_runItems (scraper : ScraperModel)
    (prs : List PressRelease) :
    ∀ st : Store,
      checkPub ((runItems scraper ⟨st, [], []⟩ prs).trace) = true := by
  induction prs with
  | nil => intro st; rfl
  | cons pr rest ih =>
      intro st
      rw [runItems_trace_cons]
      cases hc : completeStep scraper pr with
      | error msg =>
          rw [processItem_error hc]
          show checkPub (Action.scraped pr.permalink false :: _) = true
          rw [checkPub_scraped]
          exact ih st
      | ok pr2 =>
          rw [processItem_ok hc]
          by_cases hcp : pr.complete = true
          · rw [if_pos hcp]
            show checkPub (Action.stashed _ _ :: Action.published _ _ ::
              _) = true
            rw [checkPub_stashed_published]
            simp [ih ((st.Stash pr2).2)]
          · rw [if_neg hcp]
            show checkPub (Action.scraped pr.permalink true ::
              Action.stashed _ _ :: Action.published _ _ :: _) = true
            rw [checkPub_scraped, checkPub_stashed_published]
            simp [ih ((st.Stash pr2).2)]

lemma runItems_stashed_from (scraper : ScraperModel)
    (hpres : ∀ q q2, scraper.scrapeResult q = Except.ok q2 →
      q2.permalink = q.permalink)
    (prs : List PressRelease) :
    ∀ (st : Store) (i : Nat) (pl : String),
      Action.stashed i pl ∈ (runItems scraper ⟨st, [], []⟩ prs).trace →
      ∃ pr ∈ prs, pl = pr.permalink := by
  induction prs with
  | nil => intro st i pl h; cases h
  | cons pr rest ih =>
      intro st i pl h
      rw [runItems_trace_cons] at h
      rcases List.mem_append.mp h with h1 | h1
      · cases hc : completeStep scraper pr with
        | error msg =>
            rw [processItem_error hc] at h1
            simp only [List.nil_append, List.mem_cons, List.not_mem_nil,
              or_false] at h1
            exact Action.noConfusion h1
        | ok pr2 =>
            rw [processItem_ok hc] at h1
            have hperm := completeStep_permalink hpres hc
            by_cases hcp : pr.complete = true
            · rw [if_pos hcp] at h1
              simp only [List.nil_append, List.mem_cons,
                List.not_mem_nil, or_false] at h1
              rcases h1 with h2 | h2
              · injection h2 with ha hb
                exact ⟨pr, List.mem_cons_self _ _, by rw [hb, hperm]⟩
              · exact Action.noConfusion h2
            · rw [if_neg hcp] at h1
              simp only [List.nil_append, List.cons_append,
                List.mem_cons, List.not_mem_nil, or_false] at h1
              rcases h1 with h2 | h2 | h2
              · exact Action.noConfusion h2
              · injection h2 with ha hb
                exact ⟨pr, List.mem_cons_self _ _, by rw [hb, hperm]⟩
              · exact Action.noConfusion h2
      · obtain ⟨q, hq, hpl⟩ := ih _ i pl h1
        exact ⟨q, List.mem_cons_of_mem _ hq, hpl⟩

/-- Claim C7: a successful cycle's trace starts with the listing and
the dedup filter, in that order; every `published` action immediately
follows the `stashed` action bearing the same identifier (no publish
before the store accepted the event); every stashed permalink comes
from an item returned by `WhichAreNew`; and every published event is
in the final store. -/
theorem cycle_pipeline_order (scraper : ScraperModel) (s : Store)
    (prs : List PressRelease) (r : CycleState)
    (hpres : ∀ q q2, scraper.scrapeResult q = Except.ok q2 →
      q2.permalink = q.permalink)
    (hfetch : scraper.fetchList = Except.ok prs)
    (hr : doit scraper s = Outcome.ok r) :
    (∃ t, r.trace = Action.fetched prs.length ::
        Action.filtered (s.WhichAreNew prs).length :: t) ∧
    checkPub r.trace = true ∧
    (∀ (i : Nat) (pl : String), Action.stashed i pl ∈ r.trace →
      pl ∈ (s.WhichAreNew prs).map PressRelease.permalink) ∧
    (∀ e ∈ r.published, e ∈ r.store.events) := by
  rw [doit_ok hfetch] at hr
  injection hr with h2
  subst h2
  have htr : (runItems scraper
      ⟨s, [], [Action.fetched prs.length,
               Action.filtered (s.WhichAreNew prs).length]⟩
      (s.WhichAreNew prs)).trace =
      Action.fetched prs.length ::
        Action.filtered (s.WhichAreNew prs).length ::
          (runItems scraper ⟨s, [], []⟩ (s.WhichAreNew prs)).trace := by
    rw [runItems_factor]; rfl
  refine ⟨⟨_, htr⟩, ?_, ?_, ?_⟩
  · rw [htr, checkPub_fetched, checkPub_filtered]
    exact checkPub_runItems scraper _ s
  · intro i pl h
    rw [htr] at h
    simp only [List.mem_cons] at h
    rcases h with h | h | h
    · cases h
    · cases h
    · obtain ⟨pr, hmem, hpl⟩ :=
        runItems_stashed_from scraper hpres _ s i pl h
      exact List.mem_map.mpr ⟨pr, hmem, hpl.symm⟩
  · exact runItems_pub_in_store scraper _ _ (fun e he => nomatch he)

/-- Witness for `cycle_pipeline_order` at a concrete successful
cycle. -/
theorem cycle_pipeline_order_witness :
    okScr.fetchList = Except.ok [demoPR2] ∧
      doit okScr demoStore = Outcome.ok okRes ∧
      checkPub okRes.trace = true := by
  refine ⟨rfl, by decide, ?_⟩
  have hpres : ∀ q q2, okScr.scrapeResult q = Except.ok q2 →
      q2.permalink = q.permalink := by
    intro q q2 h
    injection h with h2
    subst h2; rfl
  exact (cycle_pipeline_order okScr demoStore [demoPR2] okRes hpres rfl
    (by decide)).2.1

lemma checkSerial_cons_pair (t t2 : String) (rest : List CycleMark) :
    checkSerial (CycleMark.start t :: CycleMark.finish t2 :: rest) =
      ((t == t2) && checkSerial rest) := rfl

lemma runRound_serial (scrapers : List ScraperModel) :
    ∀ s : Store,
      (∀ (s2 : Store) (ms : List CycleMark),
        runRound scrapers s = (Outcome.ok s2, ms) →
        ∀ ms2, checkSerial (ms ++ ms2) = checkSerial ms2) ∧
      (∀ (e : String) (ms : List CycleMark),
        runRound scrapers s = (Outcome.panicked e, ms) →
        checkSerial ms = true) := by
  induction scrapers with
  | nil =>
      intro s
      constructor
      · intro s2 ms h ms2
        rw [show runRound [] s = (Outcome.ok s, []) from rfl,
            Prod.mk.injEq] at h
        rw [← h.2]
        rfl
      · intro e ms h
        rw [show runRound [] s = (Outcome.ok s, []) from rfl,
            Prod.mk.injEq] at h
        exact Outcome.noConfusion h.1
  | cons scr rest ih =>
      intro s
      cases hd : doit scr s with
      | panicked msg =>
          constructor
          · intro s2 ms h
            rw [show runRound (scr :: rest) s =
                  (Outcome.panicked msg, [CycleMark.start scr.name]) by
                simp [runRound, hd], Prod.mk.injEq] at h
            exact Outcome.noConfusion h.1
          · intro e ms h
            rw [show runRound (scr :: rest) s =
                  (Outcome.panicked msg, [CycleMark.start scr.name]) by
                simp [runRound, hd], Prod.mk.injEq] at h
            rw [← h.2]
            rfl
      | ok r =>
          obtain ⟨ihok, ihpan⟩ := ih r.store
          have hred : runRound (scr :: rest) s =
              ((runRound rest r.store).1,
               CycleMark.start scr.name :: CycleMark.finish scr.name ::
                 (runRound rest r.store).2) := by
            simp [runRound, hd]
          constructor
          · intro s2 ms h ms2
            rw [hred, Prod.mk.injEq] at h
            rw [← h.2, List.cons_append, List.cons_append,
                checkSerial_cons_pair]
            rw [ihok s2 (runRound rest r.store).2
                  (by rw [← h.1]) ms2]
            simp
          · intro e ms h
            rw [hred, Prod.mk.injEq] at h
            rw [← h.2, checkSerial_cons_pair]
            rw [ihpan e (runRound rest r.store).2 (by rw [← h.1])]
            simp

/-- Claim C8: the scraper goroutine in `main` runs every cycle of
every round to completion before the next one starts (and if a cycle
panics, no further cycle starts at all), so ingestion cycles — in
particular two cycles of the same topic — never overlap. -/
theorem topic_cycles_never_overlap (n : Nat)
    (scrapers : List ScraperModel) (s : Store) :
    checkSerial (runRounds n scrapers s).2 = true := by
  induction n generalizing s with
  | zero => rfl
  | succ m ih =>
      cases hr : runRound scrapers s with
      | mk out ms =>
          cases out with
          | panicked e =>
              simp only [runRounds, hr]
              exact (runRound_serial scrapers s).2 e ms hr
          | ok s2 =>
              simp only [runRounds, hr]
              rw [(runRound_serial scrapers s).1 s2 ms hr]
              exact ih s2

lemma lookupAttr_cons (b : Attribute) (rest : List Attribute)
    (a : String) :
    lookupAttr (b :: rest) a =
      if b.key = a then b.val else lookupAttr rest a := rfl

lemma lookupAttr_not_found (attrs : List Attribute) (a : String) :
    (∀ x ∈ attrs, x.key ≠ a) → lookupAttr attrs a = "" := by
  induction attrs with
  | nil => intro _; rfl
  | cons b rest ih =>
      intro h
      rw [lookupAttr_cons, if_neg (h b (List.mem_cons_self _ _))]
      exact ih (fun x hx => h x (List.mem_cons_of_mem _ hx))

lemma lookupAttr_first (pre : List Attribute) (x : Attribute)
    (post : List Attribute) (a : String) (hx : x.key = a) :
    (∀ b ∈ pre, b.key ≠ a) → lookupAttr (pre ++ x :: post) a = x.val := by
  induction pre with
  | nil =>
      intro _
      rw [List.nil_append, lookupAttr_cons, if_pos hx]
  | cons b rest ih =>
      intro hpre
      rw [List.cons_append, lookupAttr_cons,
          if_neg (hpre b (List.mem_cons_self _ _))]
      exact ih (fun c hc => hpre c (List.mem_cons_of_mem _ hc))

/-- Claim C10: `getAttr` returns the value of the first attribute of
the node whose key equals the requested name, and the empty string
when the node has no attribute with that key. -/
theorem getAttr_first_match (n : HtmlNode) (a : String) :
    ((∀ x ∈ n.attr, x.key ≠ a) → getAttr n a = "") ∧
    (∀ (pre : List Attribute) (x : Attribute) (post : List Attribute),
      n.attr = pre ++ x :: post → x.key = a →
      (∀ b ∈ pre, b.key ≠ a) → getAttr n a = x.val) := by
  constructor
  · intro h
    exact lookupAttr_not_found n.attr a h
  · intro pre x post heq hx hpre
    show lookupAttr n.attr a = x.val
    rw [heq]
    exact lookupAttr_first pre x post a hx hpre

/-- Witness for `getAttr_first_match`: with a duplicate `href` key the
first value wins, and a missing key yields the empty string. -/
theorem getAttr_first_match_witness :
    getAttr ⟨[⟨"class", "y"⟩, ⟨"href", "x"⟩, ⟨"href", "z"⟩]⟩ "href" =
        "x" ∧
      getAttr ⟨[⟨"class", "y"⟩]⟩ "nope" = "" := by
  constructor
  · exact (getAttr_first_match ⟨[⟨"class", "y"⟩, ⟨"href", "x"⟩,
      ⟨"href", "z"⟩]⟩ "href").2 [⟨"class", "y"⟩] ⟨"href", "x"⟩
      [⟨"href", "z"⟩] rfl rfl (by decide)
  · exact (getAttr_first_match ⟨[⟨"class", "y"⟩]⟩ "nope").1 (by decide)

end Ukpr
